import Mathlib

/-!
Verification of the time-duration computation and aggregation core of the
time-tracker backend (`main.py`).

The embedding models Python `datetime` values at one-second granularity using
the proleptic Gregorian calendar, exactly as CPython's `datetime` module
implements it (`_is_leap`, `_days_in_month`, `_days_before_year`,
`_days_before_month`, `toordinal`, `weekday`).  A `Dt` is a possibly
timezone-aware datetime (tz = UTC-offset in seconds, `none` = naive); an
`Instant` is a datetime as stored in / read back from the document store,
which holds absolute UTC instants and hands back naive UTC datetimes.
-/

namespace TimeTracker

/-! Definitions, translated from `main.py` and its `datetime` calendar arithmetic. -/

/-- Leap-year test of the proleptic Gregorian calendar (CPython `_is_leap`). -/
def isLeap (y : Nat) : Bool :=
  (y % 4 == 0 && y % 100 != 0) || y % 400 == 0

/-- Number of days in month `m` of year `y` (CPython `_days_in_month`). -/
def daysInMonth (y m : Nat) : Nat :=
  if m = 2 then (if isLeap y then 29 else 28)
  else if m = 4 ∨ m = 6 ∨ m = 9 ∨ m = 11 then 30
  else 31

/-- Days in all years strictly before year `y` (CPython `_days_before_year`). -/
def daysBeforeYear (y : Nat) : Nat :=
  (y - 1) * 365 + (y - 1) / 4 - (y - 1) / 100 + (y - 1) / 400

/-- Days in year `y` strictly before month `m` (CPython `_days_before_month`). -/
def daysBeforeMonth (y m : Nat) : Nat :=
  (match m with
   | 1 => 0 | 2 => 31 | 3 => 59 | 4 => 90 | 5 => 120 | 6 => 151
   | 7 => 181 | 8 => 212 | 9 => 243 | 10 => 273 | 11 => 304 | 12 => 334
   | _ => 0)
  + (if 2 < m ∧ isLeap y then 1 else 0)

/-- Proleptic Gregorian ordinal: 0001-01-01 has ordinal 1 (CPython `_ymd2ord`). -/
def toOrdinal (y m d : Nat) : Nat :=
  daysBeforeYear y + daysBeforeMonth y m + d

/-- Python `date.weekday()`: Monday is 0; ordinal 1 (0001-01-01) is a Monday. -/
def weekdayOfOrdinal (o : Nat) : Nat := (o + 6) % 7

/-- A Python `datetime`: calendar date, seconds past midnight, optional
UTC offset in seconds (`none` = naive). -/
structure Dt where
  year : Nat
  month : Nat
  day : Nat
  sod : Nat
  tz : Option Int
  deriving DecidableEq, Repr

/-- Calendar ordinal of the date part. -/
def Dt.ord (x : Dt) : Nat := toOrdinal x.year x.month x.day

/-- Absolute position on the time line in seconds (ordinal-based epoch).
For an aware datetime this subtracts the UTC offset; Python's subtraction of
two aware datetimes is exactly the difference of these values. -/
def Dt.abs (x : Dt) : Int := (x.ord * 86400 + x.sod : Nat) - x.tz.getD 0

/-- A datetime as stored in the document store: an absolute UTC instant
(BSON dates carry no offset; the driver reads them back as naive UTC). -/
structure Instant where
  year : Nat
  month : Nat
  day : Nat
  sod : Nat
  deriving DecidableEq, Repr

/-- The absolute value the store compares dates by. -/
def Instant.lin (t : Instant) : Nat :=
  toOrdinal t.year t.month t.day * 86400 + t.sod

/-- The naive datetime the driver hands back for a stored instant. -/
def Instant.naive (t : Instant) : Dt :=
  ⟨t.year, t.month, t.day, t.sod, none⟩

/-- The same instant as an aware UTC datetime (offset 0). -/
def Instant.utc (t : Instant) : Dt :=
  ⟨t.year, t.month, t.day, t.sod, some 0⟩

/-- The UTC-annotation step of `compute_worked_minutes` (main.py lines 34-37):
a naive instant is annotated with offset 0, an aware instant is untouched. -/
def tzNormalize (x : Dt) : Dt :=
  if x.tz = none then { x with tz := some 0 } else x

/-- Model of `compute_worked_minutes(start, end, break_minutes)` (main.py lines 31-39).
`now` stands for `datetime.now(timezone.utc)` sampled when `end` is absent;
the break argument is `Option Int` because callers feed it values read from
the store, where it may be null (Python's `break_minutes or 0` then yields 0,
as does `Option.getD 0`, since `0 or 0 = 0`). -/
def compute_worked_minutes (start : Dt) (endOpt : Option Dt) (now : Dt)
    (break_minutes : Option Int) : Int :=
  let e := match endOpt with
    | none => now
    | some t => t
  let s2 := if start.tz = none then { start with tz := some 0 } else start
  let e2 := if e.tz = none then { e with tz := some 0 } else e
  let diff := Int.fdiv (e2.abs - s2.abs) 60
  max 0 (diff - break_minutes.getD 0)

/-- The day after `x`'s date (clock time and offset unchanged), as Python's
`datetime + timedelta(days=1)` behaves on fixed-offset datetimes. -/
def nextDate (x : Dt) : Dt :=
  if x.day < daysInMonth x.year x.month then { x with day := x.day + 1 }
  else if x.month < 12 then { x with month := x.month + 1, day := 1 }
  else { x with year := x.year + 1, month := 1, day := 1 }

/-- The day before `x`'s date (clock time and offset unchanged). -/
def prevDate (x : Dt) : Dt :=
  if 1 < x.day then { x with day := x.day - 1 }
  else if 1 < x.month then
    { x with month := x.month - 1, day := daysInMonth x.year (x.month - 1) }
  else { x with year := x.year - 1, month := 12, day := 31 }

/-- Python `x + timedelta(days=n)`. -/
def addDays (x : Dt) (n : Nat) : Dt := nextDate^[n] x

/-- Python `x - timedelta(days=n)`. -/
def subDays (x : Dt) (n : Nat) : Dt := prevDate^[n] x

/-- Python `datetime.weekday()`: Monday is 0. -/
def Dt.weekday (x : Dt) : Nat := weekdayOfOrdinal x.ord

/-- A date Python's `datetime` accepts (year ≥ 1, month 1..12, valid day). -/
def ValidDate (y m d : Nat) : Prop :=
  1 ≤ y ∧ 1 ≤ m ∧ m ≤ 12 ∧ 1 ≤ d ∧ d ≤ daysInMonth y m

instance (y m d : Nat) : Decidable (ValidDate y m d) := by
  unfold ValidDate; infer_instance

/-- Source `day_start = now.replace(hour=0, minute=0, second=0, microsecond=0)`. -/
def day_start (now : Dt) : Dt := { now with sod := 0 }

/-- Source `week_start = day_start - timedelta(days=day_start.weekday())`. -/
def week_start (now : Dt) : Dt := subDays (day_start now) (day_start now).weekday

/-- Source `month_start = day_start.replace(day=1)`. -/
def month_start (now : Dt) : Dt := { day_start now with day := 1 }

/-- Source `prev_month_start` with January wrapping to December of the previous
year (main.py lines 268-271). -/
def prev_month_start (now : Dt) : Dt :=
  if (month_start now).month = 1 then
    { month_start now with year := (month_start now).year - 1, month := 12 }
  else { month_start now with month := (month_start now).month - 1 }

/-- Source `next_month_start` with December wrapping to January of the next year
(main.py lines 272-275). -/
def next_month_start (now : Dt) : Dt :=
  if (month_start now).month = 12 then
    { month_start now with year := (month_start now).year + 1, month := 1 }
  else { month_start now with month := (month_start now).month + 1 }

/-- The four half-open aggregation ranges, in the order the code builds its
`ranges` dict. -/
structure RangeSet where
  today : Dt × Dt
  week : Dt × Dt
  month : Dt × Dt
  prev_month : Dt × Dt
  deriving DecidableEq, Repr

/-- The `ranges` mapping of `get_summary` (main.py lines 277-282). -/
def summaryRanges (now : Dt) : RangeSet :=
  { today := (day_start now, addDays (day_start now) 1)
    week := (week_start now, addDays (week_start now) 7)
    month := (month_start now, next_month_start now)
    prev_month := (prev_month_start now, month_start now) }

/-- Spec: "midnight of now's date". -/
def specMidnight (now : Dt) : Dt := ⟨now.year, now.month, now.day, 0, now.tz⟩

/-- Spec: "week start = today's midnight minus (today's weekday index,
Monday=0) days". -/
def specWeekStart (now : Dt) : Dt :=
  subDays (specMidnight now) (specMidnight now).weekday

/-- Spec: "first day of now's month at midnight". -/
def specMonthFirst (now : Dt) : Dt := ⟨now.year, now.month, 1, 0, now.tz⟩

/-- Spec: "first day of next month at midnight; rollover at December wraps
to January of the next year". -/
def specNextMonthFirst (now : Dt) : Dt :=
  if now.month = 12 then ⟨now.year + 1, 1, 1, 0, now.tz⟩
  else ⟨now.year, now.month + 1, 1, 0, now.tz⟩

/-- Spec: "first day of previous month at midnight; rollover at January
wraps to December of the previous year". -/
def specPrevMonthFirst (now : Dt) : Dt :=
  if now.month = 1 then ⟨now.year - 1, 12, 1, 0, now.tz⟩
  else ⟨now.year, now.month - 1, 1, 0, now.tz⟩

/-- The four ranges as the specification words them. -/
def specSummaryRanges (now : Dt) : RangeSet :=
  { today := (specMidnight now, addDays (specMidnight now) 1)
    week := (specWeekStart now, addDays (specWeekStart now) 7)
    month := (specMonthFirst now, specNextMonthFirst now)
    prev_month := (specPrevMonthFirst now, specMonthFirst now) }

/-- Membership of an absolute instant in a half-open range `[lo, hi)`,
as the store's `$gte`/`$lt` filter tests it. -/
def inRange (r : Dt × Dt) (t : Int) : Prop := r.1.abs ≤ t ∧ t < r.2.abs

instance (r : Dt × Dt) (t : Int) : Decidable (inRange r t) := by
  unfold inRange; infer_instance

/-- A JSON-ish value as it appears in a PATCH payload or in a schemaless
stored field. -/
inductive Val where
  | vdt (t : Instant)
  | vnull
  | vint (n : Int)
  | vstr (s : String)
  deriving DecidableEq, Repr

/-- A document of the `timeentry` collection as the endpoints see it.
`start_time` / `end_time` / `break_minutes` are `none` when the field is
missing or null (the store's `{"end_time": None}` filter matches both).
Non-core fields are kept schemaless. -/
structure Doc where
  start_time : Option Instant
  end_time : Option Instant
  break_minutes : Option Int
  worked_minutes : Int
  hourly_rate : Option Val
  notes : Option Val
  client_id : Option Val
  project_id : Option Val
  deriving DecidableEq, Repr

/-- Filter `start_time gte lo, lt hi`: matches documents whose
start_time is present (a date) and lies in the half-open range. -/
def rangeMatches (lo hi : Dt) (d : Doc) : Bool :=
  match d.start_time with
  | some s => decide (lo.abs ≤ (s.lin : Int)) && decide ((s.lin : Int) < hi.abs)
  | none => false

/-- Worked minutes of a fetched document as the summary loop computes them:
`compute_worked_minutes(d.get("start_time"), d.get("end_time"),
d.get("break_minutes", 0))`.  Documents reaching this point always carry a
start_time, because the range filter only matches dates; the `none` branch
is unreachable there. -/
def docLiveMinutes (now : Dt) (d : Doc) : Int :=
  match d.start_time with
  | some s =>
      compute_worked_minutes s.naive (Option.map Instant.naive d.end_time)
        now d.break_minutes
  | none => 0

/-- One range query of `get_summary` folded into a total
(main.py lines 285-290). -/
def sumRange (now : Dt) (store : List Doc) (lo hi : Dt) : Int :=
  store.foldl
    (fun total d => if rangeMatches lo hi d then total + docLiveMinutes now d
      else total) 0

/-- The result shape of `get_summary`: exactly the four keys. -/
structure Summary where
  today : Int
  week : Int
  month : Int
  prev_month : Int
  deriving DecidableEq, Repr

/-- Model of `get_summary` (main.py lines 260-292).  The single `now` models
`datetime.now(timezone.utc)`; running entries contribute their live elapsed
time at call time. -/
def get_summary (now : Dt) (store : List Doc) : Summary :=
  let r := summaryRanges now
  { today := sumRange now store r.today.1 r.today.2
    week := sumRange now store r.week.1 r.week.2
    month := sumRange now store r.month.1 r.month.2
    prev_month := sumRange now store r.prev_month.1 r.prev_month.2 }

/-- The store's `start_time` ordering for documents: a missing or null
start_time sorts below every date. -/
def startLt (a b : Option Instant) : Bool :=
  match a, b with
  | none, none => false
  | none, some _ => true
  | some _, none => false
  | some x, some y => decide (x.lin < y.lin)

/-- Model of `find_one` on end_time null, sorted by start_time descending: index and
document of a running entry with maximal start_time, if any. -/
def findLatestRunning : List Doc → Option (Nat × Doc)
  | [] => none
  | d :: ds =>
    let rest := (findLatestRunning ds).map (fun p => (p.1 + 1, p.2))
    if d.end_time = none then
      match rest with
      | none => some (0, d)
      | some (j, e) =>
          if startLt d.start_time e.start_time then some (j, e) else some (0, d)
    else rest

/-- Model of `punch_stop` (main.py lines 244-257): select the latest running entry,
compute worked minutes with `end = datetime.now(timezone.utc)`, and persist
end and worked minutes.  Returns the store after the call together with the
HTTP outcome. -/
def punch_stop (now : Instant) (store : List Doc) : List Doc × Except String Doc :=
  match findLatestRunning store with
  | none => (store, Except.error "No running timer")
  | some (i, d) =>
    match d.start_time with
    | none => (store, Except.error "Internal Server Error")
    | some s =>
      let worked := compute_worked_minutes s.naive (some now.utc) now.utc
        d.break_minutes
      let d2 := { d with end_time := some now, worked_minutes := worked }
      (store.set i d2, Except.ok d2)

/-- The document `punch_stop` persists for a selected running entry `d`
with start `s`: end set to now, worked minutes recomputed. -/
def stopUpdate (now : Instant) (s : Instant) (d : Doc) : Doc :=
  { d with end_time := some now, worked_minutes := (compute_worked_minutes s.naive (some now.utc) now.utc d.break_minutes) }

/-- The allowed PATCH fields (main.py line 221). -/
def allowedFields : List String :=
  ["start_time", "end_time", "break_minutes", "hourly_rate", "notes",
   "client_id", "project_id"]

/-- Sanitization step: keep only the allowed payload fields. -/
def sanitize (payload : List (String × Val)) : List (String × Val) :=
  payload.filter (fun kv => allowedFields.contains kv.1)

/-- Application of one sanitized field to a document, as the `$set` does. -/
def applyField (d : Doc) (kv : String × Val) : Doc :=
  match kv with
  | ("start_time", Val.vdt t) => { d with start_time := some t }
  | ("start_time", Val.vnull) => { d with start_time := none }
  | ("end_time", Val.vdt t) => { d with end_time := some t }
  | ("end_time", Val.vnull) => { d with end_time := none }
  | ("break_minutes", Val.vint n) => { d with break_minutes := some n }
  | ("break_minutes", Val.vnull) => { d with break_minutes := none }
  | ("hourly_rate", v) => { d with hourly_rate := some v }
  | ("notes", v) => { d with notes := some v }
  | ("client_id", v) => { d with client_id := some v }
  | ("project_id", v) => { d with project_id := some v }
  | _ => d

/-- Model of `update_time_entry` (main.py lines 216-234): sanitize the payload,
reject an empty update before any write, `$set` the fields, re-read the
document, recompute worked minutes from the updated values and persist
them.  Returns the store after the call and the HTTP outcome; a document
whose updated start_time is missing makes the recompute raise after the
field write (`Internal Server Error`). -/
def update_time_entry (i : Nat) (payload : List (String × Val)) (now : Dt)
    (store : List Doc) : List Doc × Except String Doc :=
  let update := sanitize payload
  if update.isEmpty then (store, Except.error "No valid fields to update")
  else
    match store[i]? with
    | none => (store, Except.error "Time entry not found")
    | some doc =>
      let doc2 := update.foldl applyField doc
      match doc2.start_time with
      | none => (store.set i doc2, Except.error "Internal Server Error")
      | some s =>
        let worked := compute_worked_minutes s.naive
          (Option.map Instant.naive doc2.end_time) now doc2.break_minutes
        let doc3 := { doc2 with worked_minutes := worked }
        (store.set i doc3, Except.ok doc3)

/-- Sort key of `docs.sort(key=lambda x: x.get("start_time", datetime.min),
reverse=True)`: a missing start_time is keyed as `datetime.min`
(0001-01-01T00:00). -/
def keyOf (d : Doc) : Nat :=
  match d.start_time with
  | some s => s.lin
  | none => Instant.lin ⟨1, 1, 1, 0⟩

/-- Stable insertion into a descending-sorted list: an element moves past a
later element only when its key is strictly greater, so equal keys keep
their original order — the characterization of Python's stable
`sort(..., reverse=True)`. -/
def insertDescBy (f : Doc → Nat) (x : Doc) : List Doc → List Doc
  | [] => [x]
  | y :: ys => if f y ≤ f x then x :: y :: ys else y :: insertDescBy f x ys

/-- Stable descending sort by key (the unique stable descending order,
hence the output of Python's list.sort with `reverse=True`). -/
def sortDescBy (f : Doc → Nat) : List Doc → List Doc
  | [] => []
  | x :: xs => insertDescBy f x (sortDescBy f xs)

/-- The worked-minutes refresh the listing loop applies to each fetched
document (main.py lines 202-211): recompute when possible, keep the stored
value when the recompute raises (missing start_time). -/
def liveDoc (now : Dt) (d : Doc) : Doc :=
  match d.start_time with
  | some s =>
      { d with worked_minutes := (compute_worked_minutes s.naive
          (Option.map Instant.naive d.end_time) now d.break_minutes) }
  | none => d

/-- The query filter of `list_time_entries` (main.py lines 189-199):
optional client match plus optional `[month start, next month start)`
start_time window. -/
def listFilter (monthQ : Option (Nat × Nat)) (clientQ : Option Val)
    (d : Doc) : Bool :=
  (match clientQ with
   | some c => d.client_id == some c
   | none => true) &&
  (match monthQ with
   | some (yr, mo) =>
     rangeMatches ⟨yr, mo, 1, 0, some 0⟩
       ⟨yr + (if mo = 12 then 1 else 0), if mo = 12 then 1 else mo + 1, 1, 0,
         some 0⟩ d
   | none => true)

/-- Model of `list_time_entries` (main.py lines 187-213): fetch with the filter,
refresh worked minutes, sort by start_time descending with missing
start_time keyed as `datetime.min`. -/
def list_time_entries (monthQ : Option (Nat × Nat)) (clientQ : Option Val)
    (now : Dt) (store : List Doc) : List Doc :=
  sortDescBy keyOf ((store.filter (listFilter monthQ clientQ)).map (liveDoc now))

/-! Lemmas and claim theorems. -/

/-- C1: for offset-aware `start ≤ end` and `break_minutes ≥ 0`,
`compute_worked_minutes(start, end, break_minutes)` equals
`max(0, floor((end − start) in seconds / 60) − break_minutes)`. -/
theorem compute_worked_minutes_formula (s e now : Dt) (b : Int)
    (hs : s.tz ≠ none) (he : e.tz ≠ none)
    (_hle : s.abs ≤ e.abs) (_hb : 0 ≤ b) :
    compute_worked_minutes s (some e) now (some b) =
      max 0 (Int.fdiv (e.abs - s.abs) 60 - b) := by
  simp [compute_worked_minutes, hs, he]

/-- Witness for C1: the spec example, 2024-03-01 09:00Z to 17:00Z with a
30-minute break gives 450 worked minutes. -/
theorem compute_worked_minutes_formula_witness :
    compute_worked_minutes ⟨2024, 3, 1, 32400, some 0⟩
        (some ⟨2024, 3, 1, 61200, some 0⟩) ⟨2024, 3, 1, 0, some 0⟩ (some 30) =
      max 0 (Int.fdiv ((Dt.abs ⟨2024, 3, 1, 61200, some 0⟩ -
        Dt.abs ⟨2024, 3, 1, 32400, some 0⟩)) 60 - 30) := by
  exact compute_worked_minutes_formula ⟨2024, 3, 1, 32400, some 0⟩
    ⟨2024, 3, 1, 61200, some 0⟩ ⟨2024, 3, 1, 0, some 0⟩ 30
    (by decide) (by decide) (by decide) (by decide)

/-- C2: the result of `compute_worked_minutes` is never negative, and on
resolved inputs with nonnegative break it is exactly 0 whenever the break
exceeds the elapsed whole minutes or the (normalized) end precedes the
start. -/
theorem compute_worked_minutes_clamped (s : Dt) (eo : Option Dt) (now : Dt)
    (bo : Option Int) :
    0 ≤ compute_worked_minutes s eo now bo ∧
    (∀ (e : Dt) (b : Int), eo = some e → bo = some b → 0 ≤ b →
      (Int.fdiv ((tzNormalize e).abs - (tzNormalize s).abs) 60 < b ∨
        (tzNormalize e).abs < (tzNormalize s).abs) →
      compute_worked_minutes s eo now bo = 0) := by
  constructor
  · exact le_max_left 0 _
  · rintro e b rfl rfl hb hcase
    have hlt : Int.fdiv ((tzNormalize e).abs - (tzNormalize s).abs) 60 - b < 0 := by
      rcases hcase with h | h
      · omega
      · have hneg : (tzNormalize e).abs - (tzNormalize s).abs < 0 := by omega
        have := Int.fdiv_neg' hneg (by norm_num : (0:Int) < 60)
        omega
    have heq : compute_worked_minutes s (some e) now (some b) =
        max 0 (Int.fdiv ((tzNormalize e).abs - (tzNormalize s).abs) 60 - b) := rfl
    rw [heq]
    omega

/-- Witness for C2: a 10-minute span with a 30-minute break collapses to 0. -/
theorem compute_worked_minutes_clamped_witness :
    compute_worked_minutes ⟨2024, 3, 1, 32400, none⟩
        (some ⟨2024, 3, 1, 33000, none⟩) ⟨2024, 3, 1, 0, some 0⟩ (some 30) = 0 :=
  (compute_worked_minutes_clamped ⟨2024, 3, 1, 32400, none⟩
      (some ⟨2024, 3, 1, 33000, none⟩) ⟨2024, 3, 1, 0, some 0⟩ (some 30)).2
    ⟨2024, 3, 1, 33000, none⟩ 30 rfl rfl (by decide) (Or.inl (by decide))

/-- C8: an instant lacking an offset is annotated as UTC with its clock
fields untouched, an instant that carries an offset is left unchanged, the
normalized operands are always offset-aware, and the subtraction inside
`compute_worked_minutes` is performed on the two normalized operands. -/
theorem compute_worked_minutes_normalizes_tz :
    (∀ x : Dt, x.tz = none → tzNormalize x = ⟨x.year, x.month, x.day, x.sod, some 0⟩) ∧
    (∀ x : Dt, x.tz ≠ none → tzNormalize x = x) ∧
    (∀ x : Dt, (tzNormalize x).tz ≠ none) ∧
    (∀ (s : Dt) (eo : Option Dt) (now : Dt) (bo : Option Int),
      compute_worked_minutes s eo now bo =
        max 0 (Int.fdiv ((tzNormalize (eo.getD now)).abs - (tzNormalize s).abs) 60 -
          bo.getD 0)) := by
  refine ⟨?_, ?_, ?_, ?_⟩
  · intro x h
    simp [tzNormalize, h]
  · intro x h
    simp [tzNormalize, h]
  · intro x
    by_cases h : x.tz = none <;> simp [tzNormalize, h]
  · intro s eo now bo
    cases eo <;> rfl

/-- Witness for C8: a naive 2024-03-01 09:00 is annotated as UTC and keeps
its clock fields. -/
theorem compute_worked_minutes_normalizes_tz_witness :
    tzNormalize ⟨2024, 3, 1, 32400, none⟩ = ⟨2024, 3, 1, 32400, some 0⟩ :=
  compute_worked_minutes_normalizes_tz.1 ⟨2024, 3, 1, 32400, none⟩ rfl

lemma daysInMonth_pos (y m : Nat) : 1 ≤ daysInMonth y m := by
  unfold daysInMonth
  split_ifs <;> omega

lemma isLeap_iff (y : Nat) :
    isLeap y = true ↔ ((y % 4 = 0 ∧ ¬ y % 100 = 0) ∨ y % 400 = 0) := by
  simp [isLeap, Bool.or_eq_true, Bool.and_eq_true, beq_iff_eq, bne_iff_ne]

set_option maxHeartbeats 1600000 in
lemma daysBeforeYear_succ (y : Nat) (hy : 1 ≤ y) :
    daysBeforeYear (y + 1) =
      daysBeforeYear y + 365 + (if isLeap y then 1 else 0) := by
  have hiff := isLeap_iff y
  cases hb : isLeap y
  · rw [hb] at hiff
    simp only [Bool.false_eq_true, false_iff] at hiff
    simp only [hb, Bool.false_eq_true, if_false]
    unfold daysBeforeYear
    omega
  · rw [hb] at hiff
    simp only [true_iff] at hiff
    simp only [hb, if_true]
    unfold daysBeforeYear
    omega

lemma daysBeforeYear_one : daysBeforeYear 1 = 0 := rfl

lemma nextDate_sod (x : Dt) : (nextDate x).sod = x.sod := by
  unfold nextDate; split_ifs <;> rfl

lemma nextDate_tz (x : Dt) : (nextDate x).tz = x.tz := by
  unfold nextDate; split_ifs <;> rfl

lemma prevDate_sod (x : Dt) : (prevDate x).sod = x.sod := by
  unfold prevDate; split_ifs <;> rfl

lemma prevDate_tz (x : Dt) : (prevDate x).tz = x.tz := by
  unfold prevDate; split_ifs <;> rfl

lemma nextDate_ord (x : Dt) (h : ValidDate x.year x.month x.day) :
    (nextDate x).ord = x.ord + 1 ∧
      ValidDate (nextDate x).year (nextDate x).month (nextDate x).day := by
  obtain ⟨hy, hm1, hm12, hd1, hdle⟩ := h
  cases x with
  | mk y m d sod tz =>
    simp only at hy hm1 hm12 hd1 hdle
    unfold nextDate
    split_ifs with h1 h2
    · refine ⟨by simp [Dt.ord, toOrdinal]; omega, ?_⟩
      simp only [ValidDate]
      simp only at h1 ⊢
      omega
    · simp only at h1 h2
      have hde : d = daysInMonth y m := by omega
      subst hde
      constructor
      · simp only [Dt.ord, toOrdinal]
        interval_cases m <;>
          (by_cases hL : isLeap y <;>
            simp only [daysBeforeMonth, daysInMonth, hL, if_true, if_false] <;>
            norm_num)
      · have := daysInMonth_pos y (m + 1)
        simp only [ValidDate]
        omega
    · simp only at h1 h2
      have hme : m = 12 := by omega
      subst hme
      have hde : d = daysInMonth y 12 := by omega
      subst hde
      constructor
      · simp only [Dt.ord, toOrdinal, daysBeforeYear_succ y hy]
        by_cases hL : isLeap y <;>
          simp only [daysBeforeMonth, daysInMonth, hL, if_true, if_false] <;>
          norm_num
      · simp only [ValidDate, daysInMonth]
        norm_num

lemma prevDate_ord (x : Dt) (h : ValidDate x.year x.month x.day)
    (h2 : 2 ≤ x.ord) :
    (prevDate x).ord + 1 = x.ord ∧
      ValidDate (prevDate x).year (prevDate x).month (prevDate x).day := by
  obtain ⟨hy, hm1, hm12, hd1, hdle⟩ := h
  cases x with
  | mk y m d sod tz =>
    simp only at hy hm1 hm12 hd1 hdle
    simp only [Dt.ord, toOrdinal] at h2
    unfold prevDate
    split_ifs with h1 hm
    · refine ⟨by simp [Dt.ord, toOrdinal]; omega, ?_⟩
      simp only [ValidDate]
      simp only at h1 ⊢
      omega
    · simp only at h1 hm
      have hde : d = 1 := by omega
      subst hde
      constructor
      · simp only [Dt.ord, toOrdinal]
        interval_cases m <;>
          (by_cases hL : isLeap y <;>
            simp only [daysBeforeMonth, daysInMonth, hL, if_true, if_false] <;>
            norm_num)
      · have := daysInMonth_pos y (m - 1)
        simp only [ValidDate]
        omega
    · simp only at h1 hm
      have hme : m = 1 := by omega
      have hde : d = 1 := by omega
      subst hme; subst hde
      have hy2 : 2 ≤ y := by
        rcases Nat.lt_or_ge y 2 with hlt | hge
        · exfalso
          have hye : y = 1 := by omega
          subst hye
          simp [daysBeforeYear_one, daysBeforeMonth] at h2
        · exact hge
      have hstep := daysBeforeYear_succ (y - 1) (by omega)
      have hy1 : y - 1 + 1 = y := by omega
      rw [hy1] at hstep
      constructor
      · simp only [Dt.ord, toOrdinal, hstep]
        by_cases hL : isLeap (y - 1) <;>
          simp only [daysBeforeMonth, daysInMonth, hL, if_true, if_false] <;>
          norm_num
      · simp only [ValidDate, daysInMonth]
        norm_num
        omega

lemma addDays_ord (x : Dt) (n : Nat) (h : ValidDate x.year x.month x.day) :
    (addDays x n).ord = x.ord + n ∧
      ValidDate (addDays x n).year (addDays x n).month (addDays x n).day ∧
      (addDays x n).sod = x.sod ∧ (addDays x n).tz = x.tz := by
  induction n generalizing x with
  | zero => exact ⟨rfl, h, rfl, rfl⟩
  | succ n ih =>
    have hstep := nextDate_ord x h
    have hrec := ih (nextDate x) hstep.2
    have hiter : addDays x (n + 1) = addDays (nextDate x) n := by
      simp [addDays, Function.iterate_succ_apply]
    rw [hiter]
    refine ⟨?_, hrec.2.1, ?_, ?_⟩
    · rw [hrec.1, hstep.1]; omega
    · rw [hrec.2.2.1, nextDate_sod]
    · rw [hrec.2.2.2, nextDate_tz]

lemma subDays_ord (x : Dt) (n : Nat) (h : ValidDate x.year x.month x.day)
    (hn : n + 1 ≤ x.ord) :
    (subDays x n).ord + n = x.ord ∧
      ValidDate (subDays x n).year (subDays x n).month (subDays x n).day ∧
      (subDays x n).sod = x.sod ∧ (subDays x n).tz = x.tz := by
  induction n generalizing x with
  | zero => exact ⟨rfl, h, rfl, rfl⟩
  | succ n ih =>
    have hstep := prevDate_ord x h (by omega)
    have hrec := ih (prevDate x) hstep.2 (by omega)
    have hiter : subDays x (n + 1) = subDays (prevDate x) n := by
      simp [subDays, Function.iterate_succ_apply]
    rw [hiter]
    refine ⟨?_, hrec.2.1, ?_, ?_⟩
    · omega
    · rw [hrec.2.2.1, prevDate_sod]
    · rw [hrec.2.2.2, prevDate_tz]

lemma weekday_le (x : Dt) : x.weekday ≤ 6 := by
  have : (x.ord + 6) % 7 < 7 := Nat.mod_lt _ (by norm_num)
  simpa [Dt.weekday, weekdayOfOrdinal] using Nat.lt_succ_iff.mp this

lemma Dt.abs_eq (x : Dt) :
    x.abs = (x.ord : Int) * 86400 + x.sod - x.tz.getD 0 := by
  simp only [Dt.abs]
  push_cast
  ring

/-- C4: the four aggregation ranges computed by `get_summary` are exactly
the ranges the specification describes: today = [midnight, midnight + 1 day),
week = [midnight − weekday days, + 7 days), month = [first of month, first
of next month) with December wrapping, prev_month = [first of previous
month, first of current month) with January wrapping. -/
theorem summaryRanges_eq_spec (now : Dt) :
    summaryRanges now = specSummaryRanges now := by
  cases now with
  | mk y m d sod tz =>
    simp only [summaryRanges, specSummaryRanges, day_start, week_start,
      month_start, prev_month_start, next_month_start, specMidnight,
      specWeekStart, specMonthFirst, specNextMonthFirst, specPrevMonthFirst]

/-- C5 counterexample: for `now = 2024-01-15T10:30Z` the instant
2024-01-15T00:00Z lies in the `today` range and in the `month` range at
once, so the four ranges are not pairwise disjoint and a start_time can
fall into more than one of them. -/
theorem summaryRanges_not_disjoint :
    inRange (summaryRanges ⟨2024, 1, 15, 37800, some 0⟩).today
        (Dt.abs ⟨2024, 1, 15, 0, some 0⟩) ∧
    inRange (summaryRanges ⟨2024, 1, 15, 37800, some 0⟩).month
        (Dt.abs ⟨2024, 1, 15, 0, some 0⟩) := by
  decide

/-- Lemma: `next_month_start` advances the first of the month exactly to the day
after the last day of the month. -/
lemma next_month_start_eq (now : Dt)
    (h : ValidDate now.year now.month now.day) :
    next_month_start now =
      nextDate ⟨now.year, now.month, daysInMonth now.year now.month, 0, now.tz⟩ := by
  obtain ⟨hy, hm1, hm12, _, _⟩ := h
  cases now with
  | mk y m d sod tz =>
    simp only at hm1 hm12
    by_cases h12 : m = 12
    · subst h12
      simp [next_month_start, month_start, day_start, nextDate]
    · have hlt : m < 12 := by omega
      simp [next_month_start, month_start, day_start, nextDate, h12, hlt]

/-- C5 amended: the four ranges are not pairwise disjoint.  What does hold:
`today` is contained in `week` and in `month` (so a start_time of today
falls into three ranges at once), while `prev_month` is disjoint from
`month` and from `today`. -/
theorem summaryRanges_overlap_structure (now : Dt)
    (hv : ValidDate now.year now.month now.day)
    (ho : 7 ≤ toOrdinal now.year now.month now.day) :
    (∀ t : Int, inRange (summaryRanges now).today t →
      inRange (summaryRanges now).week t) ∧
    (∀ t : Int, inRange (summaryRanges now).today t →
      inRange (summaryRanges now).month t) ∧
    (∀ t : Int, inRange (summaryRanges now).prev_month t →
      ¬ inRange (summaryRanges now).month t) ∧
    (∀ t : Int, inRange (summaryRanges now).prev_month t →
      ¬ inRange (summaryRanges now).today t) := by
  have hNeq := next_month_start_eq now hv
  obtain ⟨hy, hm1, hm12, hd1, hdle⟩ := hv
  cases now with
  | mk y m d sod tz =>
    simp only at hy hm1 hm12 hd1 hdle ho hNeq
    have hvD : ValidDate y m d := ⟨hy, hm1, hm12, hd1, hdle⟩
    -- endpoints of `today`
    have hDabs : (⟨y, m, d, 0, tz⟩ : Dt).abs =
        (toOrdinal y m d : Int) * 86400 - tz.getD 0 := by
      rw [Dt.abs_eq]; simp [Dt.ord]
    have hT := addDays_ord ⟨y, m, d, 0, tz⟩ 1 hvD
    have hTabs : (addDays ⟨y, m, d, 0, tz⟩ 1).abs =
        ((toOrdinal y m d : Int) + 1) * 86400 - tz.getD 0 := by
      rw [Dt.abs_eq, hT.1, hT.2.2.1, hT.2.2.2]
      push_cast [Dt.ord]
      ring
    -- endpoints of `week`
    have hw : (⟨y, m, d, 0, tz⟩ : Dt).weekday ≤ 6 := weekday_le _
    have hW := subDays_ord ⟨y, m, d, 0, tz⟩ (⟨y, m, d, 0, tz⟩ : Dt).weekday hvD
      (by simp only [Dt.ord]; omega)
    have hWabs : (subDays ⟨y, m, d, 0, tz⟩ (⟨y, m, d, 0, tz⟩ : Dt).weekday).abs =
        ((subDays ⟨y, m, d, 0, tz⟩ (⟨y, m, d, 0, tz⟩ : Dt).weekday).ord : Int) * 86400
          - tz.getD 0 := by
      rw [Dt.abs_eq, hW.2.2.1, hW.2.2.2]
      simp
    have hW7 := addDays_ord _ 7 hW.2.1
    have hW7abs : (addDays (subDays ⟨y, m, d, 0, tz⟩
          (⟨y, m, d, 0, tz⟩ : Dt).weekday) 7).abs =
        ((subDays ⟨y, m, d, 0, tz⟩ (⟨y, m, d, 0, tz⟩ : Dt).weekday).ord : Int) * 86400
          + 7 * 86400 - tz.getD 0 := by
      rw [Dt.abs_eq, hW7.1, hW7.2.2.1, hW7.2.2.2, hW.2.2.1, hW.2.2.2]
      push_cast
      ring
    have hWord : (subDays ⟨y, m, d, 0, tz⟩ (⟨y, m, d, 0, tz⟩ : Dt).weekday).ord
          + (⟨y, m, d, 0, tz⟩ : Dt).weekday = toOrdinal y m d := by
      have := hW.1
      simpa [Dt.ord] using this
    -- endpoints of `month`
    have hMabs : (⟨y, m, 1, 0, tz⟩ : Dt).abs =
        (toOrdinal y m 1 : Int) * 86400 - tz.getD 0 := by
      rw [Dt.abs_eq]; simp [Dt.ord]
    have hN := nextDate_ord ⟨y, m, daysInMonth y m, 0, tz⟩
      ⟨hy, hm1, hm12, daysInMonth_pos y m, le_refl _⟩
    have hNabs : (next_month_start ⟨y, m, d, sod, tz⟩).abs =
        ((toOrdinal y m (daysInMonth y m) : Int) + 1) * 86400 - tz.getD 0 := by
      rw [hNeq, Dt.abs_eq, hN.1, nextDate_sod, nextDate_tz]
      push_cast [Dt.ord]
      ring
    -- ordinal comparisons inside the month
    have hord1 : toOrdinal y m 1 ≤ toOrdinal y m d := by
      unfold toOrdinal; omega
    have hord2 : toOrdinal y m d ≤ toOrdinal y m (daysInMonth y m) := by
      unfold toOrdinal; omega
    refine ⟨?_, ?_, ?_, ?_⟩
    · rintro t ⟨h1, h2⟩
      simp only [summaryRanges, day_start, week_start] at h1 h2 ⊢
      rw [hDabs] at h1
      rw [hTabs] at h2
      constructor
      · rw [hWabs]; omega
      · rw [hW7abs]; omega
    · rintro t ⟨h1, h2⟩
      simp only [summaryRanges, day_start, month_start] at h1 h2 ⊢
      rw [hDabs] at h1
      rw [hTabs] at h2
      constructor
      · rw [hMabs]; omega
      · rw [hNabs]; omega
    · rintro t ⟨h1, h2⟩ ⟨h3, h4⟩
      simp only [summaryRanges, month_start, day_start] at h2 h3
      rw [hMabs] at h2
      rw [hMabs] at h3
      omega
    · rintro t ⟨h1, h2⟩ ⟨h3, h4⟩
      simp only [summaryRanges, month_start, day_start] at h2 h3
      rw [hMabs] at h2
      rw [hDabs] at h3
      omega

/-- Witness for the amended C5: at `now = 2024-03-06T01:00Z` (a Wednesday),
the midnight instant of that day lies in the `week` range. -/
theorem summaryRanges_overlap_structure_witness :
    inRange (summaryRanges ⟨2024, 3, 6, 3600, some 0⟩).week
      (Dt.abs ⟨2024, 3, 6, 0, some 0⟩) :=
  (summaryRanges_overlap_structure ⟨2024, 3, 6, 3600, some 0⟩
      (by decide) (by decide)).1 (Dt.abs ⟨2024, 3, 6, 0, some 0⟩) (by decide)

lemma foldl_range_sum (now lo hi : Dt) :
    ∀ (l : List Doc) (acc : Int),
      l.foldl (fun total d => if rangeMatches lo hi d then
          total + docLiveMinutes now d else total) acc =
        acc + ((l.filter (rangeMatches lo hi)).map (docLiveMinutes now)).sum := by
  intro l
  induction l with
  | nil => intro acc; simp
  | cons x xs ih =>
    intro acc
    by_cases h : rangeMatches lo hi x <;>
      simp only [List.foldl_cons, List.filter_cons, h, if_true, if_false,
        Bool.false_eq_true, List.map_cons, List.sum_cons, ih] <;>
      omega

lemma docLiveMinutes_nonneg (now : Dt) (d : Doc) : 0 ≤ docLiveMinutes now d := by
  cases h : d.start_time
  · simp [docLiveMinutes, h]
  · simp only [docLiveMinutes, h]
    exact le_max_left 0 _

/-- C3: each of the four summary values is the sum of
`compute_worked_minutes(entry.start, entry.end, entry.break_minutes)` over
exactly the stored entries whose start_time lies in the corresponding
half-open range `[range.start, range.end)`, and each value is
non-negative.  (`Summary` has exactly the four keys by construction.) -/
theorem get_summary_totals (now : Dt) (store : List Doc) :
    ((get_summary now store).today =
        ((store.filter (rangeMatches (summaryRanges now).today.1
            (summaryRanges now).today.2)).map (docLiveMinutes now)).sum ∧
      (get_summary now store).week =
        ((store.filter (rangeMatches (summaryRanges now).week.1
            (summaryRanges now).week.2)).map (docLiveMinutes now)).sum ∧
      (get_summary now store).month =
        ((store.filter (rangeMatches (summaryRanges now).month.1
            (summaryRanges now).month.2)).map (docLiveMinutes now)).sum ∧
      (get_summary now store).prev_month =
        ((store.filter (rangeMatches (summaryRanges now).prev_month.1
            (summaryRanges now).prev_month.2)).map (docLiveMinutes now)).sum) ∧
    (0 ≤ (get_summary now store).today ∧ 0 ≤ (get_summary now store).week ∧
      0 ≤ (get_summary now store).month ∧
      0 ≤ (get_summary now store).prev_month) := by
  have key : ∀ lo hi : Dt,
      sumRange now store lo hi =
        ((store.filter (rangeMatches lo hi)).map (docLiveMinutes now)).sum ∧
      0 ≤ sumRange now store lo hi := by
    intro lo hi
    have h1 := foldl_range_sum now lo hi store 0
    have heq : sumRange now store lo hi =
        ((store.filter (rangeMatches lo hi)).map (docLiveMinutes now)).sum := by
      simpa [sumRange] using h1
    refine ⟨heq, ?_⟩
    rw [heq]
    apply List.sum_nonneg
    intro x hx
    obtain ⟨d, _, rfl⟩ := List.mem_map.mp hx
    exact docLiveMinutes_nonneg now d
  exact ⟨⟨(key _ _).1, (key _ _).1, (key _ _).1, (key _ _).1⟩,
    (key _ _).2, (key _ _).2, (key _ _).2, (key _ _).2⟩

/-- C10: a PATCH payload containing none of the allowed fields fails with
"No valid fields to update" and leaves the store untouched, and the
outcome of an update depends only on the sanitized (allowed) fields, so
fields outside the allowed set are silently dropped. -/
theorem update_time_entry_requires_valid_field (i : Nat)
    (payload : List (String × Val)) (now : Dt) (store : List Doc) :
    ((∀ kv ∈ payload, allowedFields.contains kv.1 = false) →
      update_time_entry i payload now store =
        (store, Except.error "No valid fields to update")) ∧
    (∀ payload2 : List (String × Val), sanitize payload = sanitize payload2 →
      update_time_entry i payload now store =
        update_time_entry i payload2 now store) := by
  constructor
  · intro h
    have hempty : sanitize payload = [] := by
      apply List.filter_eq_nil_iff.mpr
      intro kv hkv
      simpa using h kv hkv
    simp [update_time_entry, hempty]
  · intro p2 hp
    unfold update_time_entry
    rw [hp]

/-- Witness for C10: a payload with only an unknown field is rejected and
the store is unchanged. -/
theorem update_time_entry_requires_valid_field_witness :
    update_time_entry 0 [("bogus", Val.vint 1)] ⟨2024, 1, 1, 0, some 0⟩
        [⟨some ⟨2024, 3, 1, 32400⟩, some ⟨2024, 3, 1, 61200⟩, some 0, 480,
          none, none, none, none⟩] =
      ([⟨some ⟨2024, 3, 1, 32400⟩, some ⟨2024, 3, 1, 61200⟩, some 0, 480,
          none, none, none, none⟩],
        Except.error "No valid fields to update") :=
  (update_time_entry_requires_valid_field 0 [("bogus", Val.vint 1)]
      ⟨2024, 1, 1, 0, some 0⟩
      [⟨some ⟨2024, 3, 1, 32400⟩, some ⟨2024, 3, 1, 61200⟩, some 0, 480,
        none, none, none, none⟩]).1 (by decide)

lemma startLt_irrefl (a : Option Instant) : startLt a a = false := by
  cases a <;> simp [startLt]

lemma startLt_asymm (a b : Option Instant) (h : startLt a b = true) :
    startLt b a = false := by
  cases a <;> cases b <;> simp_all [startLt] <;> omega

lemma startLt_false_trans (a b c : Option Instant)
    (h1 : startLt a b = false) (h2 : startLt b c = false) :
    startLt a c = false := by
  cases a <;> cases b <;> cases c <;> simp_all [startLt] <;> omega

lemma findLatestRunning_none_iff (store : List Doc) :
    findLatestRunning store = none ↔ ∀ d ∈ store, d.end_time ≠ none := by
  induction store with
  | nil => simp [findLatestRunning]
  | cons x xs ih =>
    simp only [findLatestRunning]
    by_cases hx : x.end_time = none
    · rw [if_pos hx]
      constructor
      · intro h
        exfalso
        cases hfr : findLatestRunning xs with
        | none => rw [hfr] at h; simp at h
        | some p =>
          rw [hfr] at h
          obtain ⟨j, e⟩ := p
          simp only [Option.map_some'] at h
          by_cases hlt : startLt x.start_time e.start_time = true
          · rw [if_pos hlt] at h; simp at h
          · rw [if_neg hlt] at h; simp at h
      · intro h
        exact absurd hx (h x (List.mem_cons_self x xs))
    · rw [if_neg hx, Option.map_eq_none', ih]
      constructor
      · intro h d hd
        rcases List.mem_cons.mp hd with rfl | hd2
        · exact hx
        · exact h d hd2
      · intro h d hd
        exact h d (List.mem_cons_of_mem x hd)

lemma findLatestRunning_spec (store : List Doc) :
    ∀ i d, findLatestRunning store = some (i, d) →
      store[i]? = some d ∧ d.end_time = none ∧
      ∀ e ∈ store, e.end_time = none →
        startLt d.start_time e.start_time = false := by
  induction store with
  | nil => intro i d h; simp [findLatestRunning] at h
  | cons x xs ih =>
    intro i d h
    simp only [findLatestRunning] at h
    by_cases hx : x.end_time = none
    · rw [if_pos hx] at h
      cases hfr : findLatestRunning xs with
      | none =>
        rw [hfr] at h
        simp only [Option.map_none', Option.some.injEq, Prod.mk.injEq] at h
        obtain ⟨h1, h2⟩ := h
        subst h1
        subst h2
        refine ⟨List.getElem?_cons_zero, hx, ?_⟩
        intro e he hrun
        rcases List.mem_cons.mp he with rfl | he2
        · exact startLt_irrefl _
        · exact absurd hrun ((findLatestRunning_none_iff xs).mp hfr e he2)
      | some p =>
        obtain ⟨j, e0⟩ := p
        rw [hfr] at h
        simp only [Option.map_some'] at h
        have hrec := ih j e0 hfr
        by_cases hlt : startLt x.start_time e0.start_time = true
        · rw [if_pos hlt] at h
          simp only [Option.some.injEq, Prod.mk.injEq] at h
          obtain ⟨h1, h2⟩ := h
          subst h1
          subst h2
          refine ⟨by simpa [List.getElem?_cons_succ] using hrec.1, hrec.2.1, ?_⟩
          intro e he hrun
          rcases List.mem_cons.mp he with rfl | he2
          · exact startLt_asymm _ _ hlt
          · exact hrec.2.2 e he2 hrun
        · rw [if_neg hlt] at h
          simp only [Option.some.injEq, Prod.mk.injEq] at h
          obtain ⟨h1, h2⟩ := h
          subst h1
          subst h2
          refine ⟨List.getElem?_cons_zero, hx, ?_⟩
          intro e he hrun
          rcases List.mem_cons.mp he with rfl | he2
          · exact startLt_irrefl _
          · have h1 : startLt x.start_time e0.start_time = false := by
              cases hsl : startLt x.start_time e0.start_time
              · rfl
              · exact absurd hsl hlt
            exact startLt_false_trans _ _ _ h1 (hrec.2.2 e he2 hrun)
    · rw [if_neg hx] at h
      cases hfr : findLatestRunning xs with
      | none => rw [hfr] at h; simp at h
      | some p =>
        obtain ⟨j, e0⟩ := p
        rw [hfr] at h
        simp only [Option.map_some', Option.some.injEq, Prod.mk.injEq] at h
        obtain ⟨h1, h2⟩ := h
        subst h1
        subst h2
        have hrec := ih j e0 hfr
        refine ⟨by simpa [List.getElem?_cons_succ] using hrec.1, hrec.2.1, ?_⟩
        intro e he hrun
        rcases List.mem_cons.mp he with rfl | he2
        · exact absurd hrun hx
        · exact hrec.2.2 e he2 hrun

/-- C6: the stop action targets the running entry (absent end_time) with
maximal start_time; every other entry — in particular every other running
entry — is left unchanged; and when no entry is running the action fails
with the "nothing running" condition without modifying the store. -/
theorem punch_stop_selects_latest (now : Instant) (store : List Doc) :
    ((∀ d ∈ store, d.end_time ≠ none) →
      punch_stop now store = (store, Except.error "No running timer")) ∧
    (∀ i d, findLatestRunning store = some (i, d) →
      store[i]? = some d ∧ d.end_time = none ∧
      (∀ e ∈ store, e.end_time = none →
        startLt d.start_time e.start_time = false) ∧
      (∀ j, j ≠ i → ((punch_stop now store).1)[j]? = store[j]?) ∧
      (∀ s, d.start_time = some s →
        punch_stop now store =
          (store.set i (stopUpdate now s d), Except.ok (stopUpdate now s d)))) := by
  constructor
  · intro h
    have hnone : findLatestRunning store = none :=
      (findLatestRunning_none_iff store).mpr h
    simp [punch_stop, hnone]
  · intro i d h
    have hrec := findLatestRunning_spec store i d h
    refine ⟨hrec.1, hrec.2.1, hrec.2.2, ?_, ?_⟩
    · intro j hj
      simp only [punch_stop, h]
      cases hs : d.start_time with
      | none => rfl
      | some s =>
        simp only []
        exact List.getElem?_set_ne (Ne.symm hj)
    · intro s hs
      simp only [punch_stop, h, hs, stopUpdate]

/-- Witness for C6 (the spec's stop-selection example): with two running
entries started 09:00 and 09:05, the stop action targets the second. -/
theorem punch_stop_selects_latest_witness :
    ([⟨some ⟨2024, 3, 1, 32400⟩, none, some 0, 0, none, none, none, none⟩,
      ⟨some ⟨2024, 3, 1, 32700⟩, none, some 0, 0, none, none, none, none⟩] :
        List Doc)[1]? =
      some ⟨some ⟨2024, 3, 1, 32700⟩, none, some 0, 0, none, none, none, none⟩ :=
  ((punch_stop_selects_latest ⟨2024, 3, 1, 33000⟩
      [⟨some ⟨2024, 3, 1, 32400⟩, none, some 0, 0, none, none, none, none⟩,
       ⟨some ⟨2024, 3, 1, 32700⟩, none, some 0, 0, none, none, none, none⟩]).2
    1 ⟨some ⟨2024, 3, 1, 32700⟩, none, some 0, 0, none, none, none, none⟩
    (by decide)).1

/-- C7: whenever a partial update or the stop action succeeds, the persisted
document's worked_minutes equals `compute_worked_minutes` applied to the
document's resulting start, end and break values (so it is never left stale
and never derived from the previously stored worked_minutes, which the
formula does not mention). -/
theorem worked_minutes_recomputed (now : Dt) (store : List Doc) :
    (∀ (i : Nat) (payload : List (String × Val)) (st2 : List Doc) (doc3 : Doc),
      update_time_entry i payload now store = (st2, Except.ok doc3) →
      st2[i]? = some doc3 ∧
      ∃ s, doc3.start_time = some s ∧
        doc3.worked_minutes = compute_worked_minutes s.naive
          (Option.map Instant.naive doc3.end_time) now doc3.break_minutes) ∧
    (∀ (nowI : Instant) (st2 : List Doc) (d2 : Doc),
      punch_stop nowI store = (st2, Except.ok d2) →
      ∃ i : Nat, st2[i]? = some d2 ∧
      ∃ s, d2.start_time = some s ∧ d2.end_time = some nowI ∧
        d2.worked_minutes = compute_worked_minutes s.naive
          (Option.map Instant.naive d2.end_time) nowI.utc d2.break_minutes) := by
  constructor
  · intro i payload st2 doc3 h
    simp only [update_time_entry] at h
    split at h
    · simp at h
    · split at h
      · simp at h
      · rename_i doc hdoc
        split at h
        · simp at h
        · rename_i s hs
          simp only [Prod.mk.injEq, Except.ok.injEq] at h
          obtain ⟨h1, h2⟩ := h
          subst h2
          subst h1
          have hlen : i < store.length :=
            (List.getElem?_eq_some_iff.mp hdoc).1
          refine ⟨?_, s, ?_, ?_⟩
          · rw [List.getElem?_set_self (by simpa using hlen)]
          · exact hs
          · rfl
  · intro nowI st2 d2 h
    simp only [punch_stop] at h
    split at h
    · simp at h
    · rename_i p i d hfr
      split at h
      · simp at h
      · rename_i s hs
        simp only [Prod.mk.injEq, Except.ok.injEq] at h
        obtain ⟨h1, h2⟩ := h
        subst h2
        subst h1
        have hrec := findLatestRunning_spec store i d hfr
        have hlen : i < store.length :=
          (List.getElem?_eq_some_iff.mp hrec.1).1
        refine ⟨i, ?_, s, hs, rfl, ?_⟩
        · rw [List.getElem?_set_self (by simpa using hlen)]
        · show compute_worked_minutes s.naive (some nowI.utc) nowI.utc
              d.break_minutes =
            compute_worked_minutes s.naive (some nowI.naive) nowI.utc
              d.break_minutes
          rfl

/-- Witness for C7: patching the break from 0 to 15 minutes on an
09:00–17:00 entry persists worked_minutes = 465 = compute of the resulting
values. -/
theorem worked_minutes_recomputed_witness :
    ([⟨some ⟨2024, 3, 1, 32400⟩, some ⟨2024, 3, 1, 61200⟩, some 15, 465,
        none, none, none, none⟩] : List Doc)[0]? =
      some ⟨some ⟨2024, 3, 1, 32400⟩, some ⟨2024, 3, 1, 61200⟩, some 15, 465,
        none, none, none, none⟩ ∧
    ∃ s, (⟨some ⟨2024, 3, 1, 32400⟩, some ⟨2024, 3, 1, 61200⟩, some 15, 465,
        none, none, none, none⟩ : Doc).start_time = some s ∧
      (⟨some ⟨2024, 3, 1, 32400⟩, some ⟨2024, 3, 1, 61200⟩, some 15, 465,
        none, none, none, none⟩ : Doc).worked_minutes =
        compute_worked_minutes s.naive
          (Option.map Instant.naive
            (⟨some ⟨2024, 3, 1, 32400⟩, some ⟨2024, 3, 1, 61200⟩, some 15, 465,
              none, none, none, none⟩ : Doc).end_time)
          ⟨2024, 3, 1, 0, some 0⟩
          (⟨some ⟨2024, 3, 1, 32400⟩, some ⟨2024, 3, 1, 61200⟩, some 15, 465,
            none, none, none, none⟩ : Doc).break_minutes :=
  (worked_minutes_recomputed ⟨2024, 3, 1, 0, some 0⟩
      [⟨some ⟨2024, 3, 1, 32400⟩, some ⟨2024, 3, 1, 61200⟩, some 0, 480,
        none, none, none, none⟩]).1
    0 [("break_minutes", Val.vint 15)]
    [⟨some ⟨2024, 3, 1, 32400⟩, some ⟨2024, 3, 1, 61200⟩, some 15, 465,
      none, none, none, none⟩]
    ⟨some ⟨2024, 3, 1, 32400⟩, some ⟨2024, 3, 1, 61200⟩, some 15, 465,
      none, none, none, none⟩
    rfl

lemma insertDescBy_perm (f : Doc → Nat) (x : Doc) (l : List Doc) :
    (insertDescBy f x l).Perm (x :: l) := by
  induction l with
  | nil => simp [insertDescBy]
  | cons y ys ih =>
    simp only [insertDescBy]
    by_cases h : f y ≤ f x
    · rw [if_pos h]
    · rw [if_neg h]
      exact (ih.cons y).trans (List.Perm.swap x y ys)

lemma sortDescBy_perm (f : Doc → Nat) (l : List Doc) :
    (sortDescBy f l).Perm l := by
  induction l with
  | nil => simp [sortDescBy]
  | cons x xs ih =>
    simp only [sortDescBy]
    exact (insertDescBy_perm f x (sortDescBy f xs)).trans (ih.cons x)

lemma insertDescBy_pairwise (f : Doc → Nat) (x : Doc) (l : List Doc)
    (h : l.Pairwise (fun a b => f b ≤ f a)) :
    (insertDescBy f x l).Pairwise (fun a b => f b ≤ f a) := by
  induction l with
  | nil => simp [insertDescBy]
  | cons y ys ih =>
    simp only [insertDescBy]
    obtain ⟨hy, hys⟩ := List.pairwise_cons.mp h
    by_cases hle : f y ≤ f x
    · rw [if_pos hle]
      refine List.pairwise_cons.mpr ⟨?_, h⟩
      intro b hb
      rcases List.mem_cons.mp hb with rfl | hb2
      · exact hle
      · exact le_trans (hy b hb2) hle
    · rw [if_neg hle]
      refine List.pairwise_cons.mpr ⟨?_, ih hys⟩
      intro b hb
      have hmem : b ∈ x :: ys := (insertDescBy_perm f x ys).mem_iff.mp hb
      rcases List.mem_cons.mp hmem with rfl | hb2
      · omega
      · exact hy b hb2

lemma sortDescBy_pairwise (f : Doc → Nat) (l : List Doc) :
    (sortDescBy f l).Pairwise (fun a b => f b ≤ f a) := by
  induction l with
  | nil => simp [sortDescBy]
  | cons x xs ih =>
    simp only [sortDescBy]
    exact insertDescBy_pairwise f x _ ih

/-- C9 counterexample: entries lacking a start_time are NOT always ordered
last.  A missing start_time is keyed as `datetime.min`; with one entry
lacking a start_time and one starting exactly at 0001-01-01T00:00, the keys
tie and the stable sort keeps store order, so the start-less entry comes
first.  (Its worked_minutes also stays at the stored value 5, since the
recompute raises and the code falls back to the stored field.) -/
theorem list_time_entries_missing_start_not_last :
    (list_time_entries none none ⟨2024, 1, 1, 0, some 0⟩
        [⟨none, none, some 0, 5, none, none, none, none⟩,
         ⟨some ⟨1, 1, 1, 0⟩, some ⟨1, 1, 1, 0⟩, some 0, 7, none, none, none,
           none⟩]).map (fun d => d.start_time) =
      [none, some ⟨1, 1, 1, 0⟩] ∧
    (list_time_entries none none ⟨2024, 1, 1, 0, some 0⟩
        [⟨none, none, some 0, 5, none, none, none, none⟩,
         ⟨some ⟨1, 1, 1, 0⟩, some ⟨1, 1, 1, 0⟩, some 0, 7, none, none, none,
           none⟩]).map (fun d => d.worked_minutes) =
      [5, 0] := by
  constructor <;> rfl

/-- C9 amended: the listing is sorted by start_time descending where a
missing start_time is keyed as `datetime.min` (so such entries sort after
every entry with a larger key, but tie with entries starting exactly at
`datetime.min`, stable in store order); it returns exactly the filtered
documents with worked_minutes refreshed; the refresh recomputes
worked_minutes from the stored start, end and break values whenever
start_time is present and keeps the stored value when it is absent. -/
theorem list_time_entries_sorted_and_live (monthQ : Option (Nat × Nat))
    (clientQ : Option Val) (now : Dt) (store : List Doc) :
    (list_time_entries monthQ clientQ now store).Pairwise
      (fun a b => keyOf b ≤ keyOf a) ∧
    (list_time_entries monthQ clientQ now store).Perm
      ((store.filter (listFilter monthQ clientQ)).map (liveDoc now)) ∧
    (∀ (d : Doc) (s : Instant), d.start_time = some s →
      liveDoc now d = { d with worked_minutes := (compute_worked_minutes s.naive
        (Option.map Instant.naive d.end_time) now d.break_minutes) } ∧
      keyOf d = s.lin) ∧
    (∀ d : Doc, d.start_time = none →
      liveDoc now d = d ∧ keyOf d = Instant.lin ⟨1, 1, 1, 0⟩) := by
  refine ⟨sortDescBy_pairwise _ _, sortDescBy_perm _ _, ?_, ?_⟩
  · intro d s hs
    constructor
    · simp [liveDoc, hs]
    · simp [keyOf, hs]
  · intro d hd
    constructor
    · simp [liveDoc, hd]
    · simp [keyOf, hd]

/-- Witness for the amended C9: an entry with a present start_time has its
worked_minutes refreshed from start, end and break. -/
theorem list_time_entries_sorted_and_live_witness :
    liveDoc ⟨2024, 3, 1, 0, some 0⟩
        ⟨some ⟨2024, 3, 1, 32400⟩, some ⟨2024, 3, 1, 61200⟩, some 30, 999,
          none, none, none, none⟩ =
      { (⟨some ⟨2024, 3, 1, 32400⟩, some ⟨2024, 3, 1, 61200⟩, some 30, 999,
          none, none, none, none⟩ : Doc) with
        worked_minutes := (compute_worked_minutes
          (Instant.naive ⟨2024, 3, 1, 32400⟩)
          (Option.map Instant.naive (some ⟨2024, 3, 1, 61200⟩))
          ⟨2024, 3, 1, 0, some 0⟩ (some 30)) } ∧
    keyOf ⟨some ⟨2024, 3, 1, 32400⟩, some ⟨2024, 3, 1, 61200⟩, some 30, 999,
        none, none, none, none⟩ = Instant.lin ⟨2024, 3, 1, 32400⟩ :=
  (list_time_entries_sorted_and_live none none ⟨2024, 3, 1, 0, some 0⟩ []).2.2.1
    ⟨some ⟨2024, 3, 1, 32400⟩, some ⟨2024, 3, 1, 61200⟩, some 30, 999,
      none, none, none, none⟩ ⟨2024, 3, 1, 32400⟩ rfl

end TimeTracker
